import Mathlib

/-!
Shallow embedding of the riskengine core (lender amortizer, return-cap
engine, historical ratio model, cohort cash-flow projector, retention-curve
sampler) together with proofs settling the frozen claims about it.

Python floats are modelled by exact arithmetic: `ℝ` where the source takes
a real 12th root, `ℚ` elsewhere.  Python exceptions are modelled by
`Option` (`none` = raised / undefined).  `random.choice` is modelled by an
externally supplied index reduced modulo the pool size; two runs from an
identical seed consume identical indices.
-/

namespace RiskEngine

/-! ## Lender amortizer — deploy_backend/lender_cashflow_calculator.py -/

/-- Embedding of `monthly_interest_rate = (1 + yearly_interest_rate) ** (1/12) - 1`. -/
noncomputable def monthly_interest_rate (yearly : ℝ) : ℝ :=
  (1 + yearly) ^ ((1 : ℝ) / 12) - 1

/-- One month of the amortization loop (lines 34-57 of
lender_cashflow_calculator.py): given the outstanding principal and the
original flow, return (payment to lender, principal payment, new
outstanding).  A non-positive flow records payment 0 and leaves the
principal untouched; otherwise
`principal = min(max_payment - interest, outstanding)` with NO lower
clamp, exactly as in the source. -/
noncomputable def lenderStep (pct m out flow : ℝ) : ℝ × ℝ × ℝ :=
  if flow ≤ 0 then (0, 0, out)
  else
    let maxPay := flow * pct
    let interest := out * m
    let prin := min (maxPay - interest) out
    (interest + prin, prin, out - prin)

/-- Payments appended by the loop, one per entry of `original_cashflows[1:]`. -/
noncomputable def lenderPays (pct m : ℝ) : ℝ → List ℝ → List ℝ
  | _, [] => []
  | out, f :: fs => (lenderStep pct m out f).1 :: lenderPays pct m (lenderStep pct m out f).2.2 fs

/-- Principal payments (`actual_principal_payment`) made by the loop,
0 for a grace month. -/
noncomputable def lenderPrins (pct m : ℝ) : ℝ → List ℝ → List ℝ
  | _, [] => []
  | out, f :: fs => (lenderStep pct m out f).2.1 :: lenderPrins pct m (lenderStep pct m out f).2.2 fs

/-- Trace of `outstanding_principal`: its value before each month and after
the last one (length = number of months + 1). -/
noncomputable def lenderOuts (pct m : ℝ) : ℝ → List ℝ → List ℝ
  | out, [] => [out]
  | out, f :: fs => out :: lenderOuts pct m (lenderStep pct m out f).2.2 fs

/-- Final value of `outstanding_principal` after the loop. -/
noncomputable def lenderFinalOut (pct m : ℝ) : ℝ → List ℝ → ℝ
  | out, [] => out
  | out, f :: fs => lenderFinalOut pct m (lenderStep pct m out f).2.2 fs

/-- The `loan_info` dictionary returned by `calculate_lender_cashflows`. -/
structure LoanSummary where
  loan_amount : ℝ
  total_payments_received : ℝ
  final_outstanding_principal : ℝ
  net_return : ℝ
  monthly_rate : ℝ

/-- Embedding of `calculate_lender_cashflows(original_cashflows,
loan_percentage, yearly_interest_rate)`.  `none` models the two `raise
ValueError` guards (fewer than 2 entries, non-negative first entry). -/
noncomputable def calculate_lender_cashflows (cfs : List ℝ) (pct yearly : ℝ) :
    Option (List ℝ × LoanSummary) :=
  match cfs with
  | c0 :: c1 :: rest =>
    if 0 ≤ c0 then none
    else
      let m := monthly_interest_rate yearly
      let loan := c0 * pct
      let out0 := |loan|
      let pays := lenderPays pct m out0 (c1 :: rest)
      some (loan :: pays,
        { loan_amount := |loan|
          total_payments_received := pays.sum
          final_outstanding_principal := lenderFinalOut pct m out0 (c1 :: rest)
          net_return := pays.sum - |loan|
          monthly_rate := m })
  | _ => none

/-! ## Historical ratio model — backend/prediction_engine.py
(`build_prediction_algorithm`, lines 159-222)

A `HistoricalSeries` is the chronologically sorted list of months, each
carrying its (spend, revenue) pair (absent values already read back as 0 by
`load_historical_data`). -/

/-- Per-month ratio list: `sm / revenue` when `revenue > 0`, else `None`
(lines 169-179). -/
def ratioSeq (series : List (ℚ × ℚ)) : List (Option ℚ) :=
  series.map fun x => if 0 < x.2 then some (x.1 / x.2) else none

/-- The heads test of lines 181-184: ratio is `None` or `> 10000`
(a rational is never non-finite, so the `isfinite` disjunct cannot fire). -/
def isHeadsVal (r : Option ℚ) : Bool :=
  match r with
  | none => true
  | some v => decide (10000 < v)

/-- Embedding of `heads_percentage_overall` (line 185). -/
def heads_percentage_overall (series : List (ℚ × ℚ)) : ℚ :=
  let rs := ratioSeq series
  if rs.length = 0 then 0 else ((rs.filter isHeadsVal).length : ℚ) / rs.length

/-- Ratios of the most recent 12 months, or all of them if fewer exist
(lines 188-189; `all_months[-12:]`). -/
def last12Ratios (series : List (ℚ × ℚ)) : List (Option ℚ) :=
  let rs := ratioSeq series
  rs.drop (rs.length - 12)

/-- Embedding of `heads_percentage_last_12` (line 194). -/
def heads_percentage_last_12 (series : List (ℚ × ℚ)) : ℚ :=
  let rs := last12Ratios series
  if rs.length = 0 then 0 else ((rs.filter isHeadsVal).length : ℚ) / rs.length

/-- Embedding of the mode split of lines 197-204: conservative takes the
max of overall and last-12, aggressive the overall value. -/
def heads_percentage (series : List (ℚ × ℚ)) (conservative : Bool) : ℚ :=
  if conservative = true then
    max (heads_percentage_overall series) (heads_percentage_last_12 series)
  else heads_percentage_overall series

/-- The sampling pool of lines 208-212: all non-`None` ratios `< 10000`. -/
def distributionOf (series : List (ℚ × ℚ)) : List ℚ :=
  ((ratioSeq series).filterMap id).filter fun r => decide (r < 10000)

/-! ## Ratio sampler tail branch — the conservative harmonic blend

`pydiv a b` models Python float division: `none` models the
`ZeroDivisionError` raised when the denominator is 0. -/

def pydiv (a b : ℚ) : Option ℚ :=
  if b = 0 then none else some (a / b)

/-- Embedding of the tails branch of `run_single_prediction_ratio`
(deploy_backend/monte_carlo_predicted_ratio.py lines 34-48) for a
non-empty pool, as a function of the drawn ratio.  The blend divides by
`drawn` with no zero guard, so a drawn ratio of 0 propagates `none`
(a raised `ZeroDivisionError`). -/
def predictedRatioDeploy (conservative : Bool) (cac lastSm smVal drawn : ℚ) : Option ℚ :=
  if conservative = true ∧ drawn < cac then
    if lastSm < smVal then
      match pydiv lastSm drawn, pydiv (smVal - lastSm) cac with
      | some t1, some t2 => pydiv smVal (t1 + t2)
      | _, _ => none
    else some drawn
  else some drawn

/-- Embedding of the same branch of `predict_next_12_months`
(backend/prediction_engine.py lines 254-269), whose blend guard also
requires `drawn_ratio > 0`. -/
def predictedRatioBackend (conservative : Bool) (cac lastSm smVal drawn : ℚ) : Option ℚ :=
  if conservative = true ∧ drawn < cac then
    if lastSm < smVal ∧ 0 < drawn then
      match pydiv lastSm drawn, pydiv (smVal - lastSm) cac with
      | some t1, some t2 => pydiv smVal (t1 + t2)
      | _, _ => none
    else some drawn
  else some drawn

/-! ## Cohort cash-flow projector —
deploy_backend/create_comprehensive_table.py, `build_gross_profit_table`
(lines 135-204), for one row given its (spend, ratio) pair and retention
curve. -/

/-- Line 148: `sm_ratio = sm_value / predicted_ratio if predicted_ratio != 0
else None`.  Note the source tests `!= 0`, not `> 0`. -/
def month1_revenue (sm ratio : ℚ) : Option ℚ :=
  if ratio = 0 then none else some (sm / ratio)

/-- Lines 160-163: `revenue = prev_revenue * retention_value` when both are
non-`None`, else `None`. -/
def combineRev (prev rv : Option ℚ) : Option ℚ :=
  match prev, rv with
  | some p, some v => some (p * v)
  | _, _ => none

/-- Lines 158-168: the monthly revenue recursion, walking the supplied
retention values in order. -/
def revenue_tail : Option ℚ → List (Option ℚ) → List (Option ℚ)
  | _, [] => []
  | prev, rv :: rest => combineRev prev rv :: revenue_tail (combineRev prev rv) rest

/-- The 60 monthly revenues of one row.  The loop reads
`retention_curve[month]` for `month = 1..59` (index 0 of the curve is never
used), i.e. the values `(curve.drop 1).take 59`. -/
def revenue_seq (sm ratio : ℚ) (curve : List (Option ℚ)) : List (Option ℚ) :=
  month1_revenue sm ratio :: revenue_tail (month1_revenue sm ratio) ((curve.drop 1).take 59)

/-- Lines 155, 165: gross profit = revenue × gross margin, `None` propagated. -/
def gross_profit_seq (sm ratio : ℚ) (curve : List (Option ℚ)) (margin : ℚ) :
    List (Option ℚ) :=
  (revenue_seq sm ratio curve).map fun r => r.map fun v => v * margin

/-- Line 177: `cash_flow = [-sm_value] + [gp if gp is not None else 0 for gp
in gross_profit_columns]`. -/
def cash_flow_vec (sm ratio : ℚ) (curve : List (Option ℚ)) (margin : ℚ) : List ℚ :=
  (-sm) :: (gross_profit_seq sm ratio curve margin).map fun g => g.getD 0

/-! ## Return-cap engine —
deploy_backend/fund_performance_model.py, `calculate_fund_returns_for_cohort`
(lines 16-132).

The numerical root-finder `numpy_financial.irr` is external to the
repository; the engine is embedded relative to an abstract
`irrFn : List ℚ → Option ℚ` where `none` models both a raised exception and
a `None`/NaN result (a NaN compares false against the target in Python,
exactly as `none` yields `false` below). -/

/-- Lines 39-46: monthly fund returns, 80 percent of each positive
gross-profit entry, 0 for `None` or non-positive entries, over the first
`min(60, max_years*12)` months. -/
def monthly_returns_of (gps : List (Option ℚ)) (maxYears : ℕ) : List ℚ :=
  (gps.take (min 60 (maxYears * 12))).map fun g =>
    match g with
    | some v => if 0 < v then v * (4 / 5) else 0
    | none => 0

/-- The test of lines 82-85 for a given 0-based `month`: the root-finder
value on `[-loan_amount] + monthly_returns[:month+1]` exists and is
`>= target_irr`.  The comparison uses the MONTHLY root directly — the
source does not annualize here. -/
def capCond (irrFn : List ℚ → Option ℚ) (L target : ℚ) (pays : List ℚ) (month : ℕ) : Bool :=
  match irrFn (-L :: pays.take (month + 1)) with
  | some r => decide (target ≤ r)
  | none => false

/-- Embedding of the search of lines 80-93: `months_to_target` is
`month + 1` for the first month passing `capCond`, else `None`. -/
def months_to_target (irrFn : List ℚ → Option ℚ) (L target : ℚ) (pays : List ℚ) :
    Option ℕ :=
  ((List.range pays.length).find? (capCond irrFn L target pays)).map fun month => month + 1

/-- Lines 88-90: zero every entry at index `>= m` (months after the capped
month), keeping indices `< m`. -/
def zeroFrom : ℕ → List ℚ → List ℚ
  | _, [] => []
  | 0, _ :: rest => 0 :: zeroFrom 0 rest
  | m + 1, x :: rest => x :: zeroFrom m rest

/-- The `final_monthly_returns` series: capped when a target month exists,
otherwise the original returns (lines 78-93). -/
def final_monthly_returns (irrFn : List ℚ → Option ℚ) (L target : ℚ) (pays : List ℚ) :
    List ℚ :=
  match months_to_target irrFn L target pays with
  | some m => zeroFrom m pays
  | none => pays

/-- Line 96: cumulative return recomputed on the capped series. -/
def final_cumulative_return (irrFn : List ℚ → Option ℚ) (L target : ℚ) (pays : List ℚ) : ℚ :=
  (final_monthly_returns irrFn L target pays).sum

/-- Lines 99-101: the final root-finder value on the capped cash flow. -/
def final_irr (irrFn : List ℚ → Option ℚ) (L target : ℚ) (pays : List ℚ) : Option ℚ :=
  irrFn (-L :: final_monthly_returns irrFn L target pays)

/-- Lines 102-105: the reported `actual_irr`, with an undefined final root
coerced to 0. -/
def actual_irr_reported (irrFn : List ℚ → Option ℚ) (L target : ℚ) (pays : List ℚ) : ℚ :=
  match final_irr irrFn L target pays with
  | some r => r
  | none => 0

/-! ## Summary-table IRR — deploy_backend/transform_to_lender_cashflows_backup.py,
`create_summary_table` (lines 586-669). -/

/-- Embedding of the local `calculate_irr` (lines 586-610): `None` for
fewer than 2 entries or an undefined monthly root, else the annualized
value `(1 + monthly) ^ 12 - 1`.  (The NaN/inf filters cannot fire on exact
rationals.) -/
def calc_irr_yearly (irrFn : List ℚ → Option ℚ) (cf : List ℚ) : Option ℚ :=
  if cf.length < 2 then none
  else
    match irrFn cf with
    | none => none
    | some mIrr => some ((1 + mIrr) ^ (12 : ℕ) - 1)

/-- Line 669: the IRR cell written into the summary row,
`irr_yearly if irr_yearly is not None else 0`. -/
def summary_irr_cell (irrFn : List ℚ → Option ℚ) (cf : List ℚ) : ℚ :=
  (calc_irr_yearly irrFn cf).getD 0

/-- Net present value of a cash-flow list at rate `r` (Horner form of
`Σ cf[i] / (1+r)^i`), the function whose root the spec says the numerical
root-finder solves. -/
def npvQ : List ℚ → ℚ → ℚ
  | [], _ => 0
  | c :: cs, r => c + npvQ cs r / (1 + r)

/-- Modelled from the spec: the numerical IRR root-finder
(`numpy_financial.irr`) is external to the repository; the spec describes
it as a numerical root-finder on the net-present-value function that
returns undefined when no root / no convergence exists.  This model covers
cash flows of the shape `[-L, p, 0, ..., 0]` with `L > 0 < p`, whose
net-present-value function has the unique root `p / L - 1` on `(-1, ∞)`
(lemmas `npvQ_two_entry_root` and `npvQ_two_entry_root_unique` below), and
returns `none` — undefined — on every other shape, in particular when all
flows after the investment are `≤ 0`. -/
def modelIrr (cf : List ℚ) : Option ℚ :=
  match cf with
  | a :: b :: rest =>
    if a < 0 ∧ 0 < b ∧ rest.all fun x => x = 0 then some (b / (-a) - 1) else none
  | _ => none

/-! ## Retention-curve sampler — backend/simulate_retention_curve.py
(lines 95-217) and deploy_backend/simulate_1000_retention_curves.py
(lines 50-163), whose per-column logic is identical.

The table is the already-built retention table (`get_retention_table`
output: last cohort row dropped, row 0 = the older-cohorts row). -/

/-- Observed values of column `c` across all rows except row 0:
`[row[c] for row in retention_table[1:] if c < len(row) and row[c] is not
None]`.  (`getD c none` is `none` exactly when `c` is out of range or the
cell is empty.) -/
def colVals (t : List (List (Option ℚ))) (c : ℕ) : List ℚ :=
  (t.drop 1).filterMap fun row => row.getD c none

/-- How many non-empty neighbour columns each side contributes, by the
four branches on `len(col_values)`. -/
def tier_widen (n : ℕ) : ℕ :=
  if 12 ≤ n then 1 else if 5 ≤ n then 2 else if 2 ≤ n then 3 else 5

/-- The first `k` non-empty columns found scanning left from `c - 1` down
to 0 (`for c in range(col - 1, -1, -1)`). -/
def left_cols (t : List (List (Option ℚ))) (c k : ℕ) : List ℕ :=
  (((List.range c).reverse).filter fun j => !(colVals t j).isEmpty).take k

/-- The first `k` non-empty columns found scanning right from `c + 1` up
to 59 (`for c in range(col + 1, 60)`). -/
def right_cols (t : List (List (Option ℚ))) (c k : ℕ) : List ℕ :=
  ((List.range' (c + 1) (60 - (c + 1))).filter fun j => !(colVals t j).isEmpty).take k

/-- Concatenated values of a list of columns, in order. -/
def colsVals (t : List (List (Option ℚ))) : List ℕ → List ℚ
  | [] => []
  | c :: cs => colVals t c ++ colsVals t cs

/-- The widened pool `all_values` for column `c`: own column values, then
the left neighbours, then the right neighbours (each value counted once
per column membership). -/
def pool (t : List (List (Option ℚ))) (c : ℕ) : List ℚ :=
  let k := tier_widen (colVals t c).length
  colVals t c ++ colsVals t (left_cols t c k) ++ colsVals t (right_cols t c k)

/-- Model of `random.choice(all_values) if all_values else None`: the
supplied index reduced modulo the pool size; `none` iff the pool is empty. -/
def choose_raw (t : List (List (Option ℚ))) (c pick : ℕ) : Option ℚ :=
  (pool t c)[pick % (pool t c).length]?

/-- One sampled column (lines 104-211 / 55-161): the raw draw, then the
conservative dampening `chosen = (max(1, floor) + chosen) / 2` when the
mode is conservative and `chosen > max(1, floor)`. -/
def sample_col (t : List (List (Option ℚ))) (floor : ℚ) (conservative : Bool)
    (pick c : ℕ) : Option ℚ :=
  match choose_raw t c pick with
  | none => none
  | some ch =>
    if conservative = true ∧ max 1 floor < ch then some ((max 1 floor + ch) / 2)
    else some ch

/-- One simulated 60-month retention curve, with `picks` supplying the
random index consumed at each column. -/
def simulate_curve (t : List (List (Option ℚ))) (floor : ℚ) (conservative : Bool)
    (picks : ℕ → ℕ) : List (Option ℚ) :=
  (List.range 60).map fun c => sample_col t floor conservative (picks c) c

/-! ## Lemmas about the lender amortizer -/

theorem lenderStep_out_eq (pct m out f : ℝ) :
    (lenderStep pct m out f).2.2 = out - (lenderStep pct m out f).2.1 := by
  unfold lenderStep
  split <;> simp

theorem lenderStep_out_nonneg (pct m : ℝ) {out : ℝ} (f : ℝ) (h : 0 ≤ out) :
    0 ≤ (lenderStep pct m out f).2.2 := by
  unfold lenderStep
  split
  · exact h
  · simp only
    have hmin : min (f * pct - out * m) out ≤ out := min_le_right _ _
    linarith

theorem lenderOuts_zero (pct m out : ℝ) (fs : List ℝ) :
    (lenderOuts pct m out fs)[0]? = some out := by
  cases fs <;> simp [lenderOuts]

theorem lender_trace_spec (pct m : ℝ) :
    ∀ (fs : List ℝ) (out : ℝ) (i : ℕ) (f : ℝ), fs[i]? = some f →
      ∃ outI, (lenderOuts pct m out fs)[i]? = some outI ∧
        (lenderPays pct m out fs)[i]? = some (lenderStep pct m outI f).1 ∧
        (lenderPrins pct m out fs)[i]? = some (lenderStep pct m outI f).2.1 ∧
        (lenderOuts pct m out fs)[i + 1]? = some (lenderStep pct m outI f).2.2 := by
  intro fs
  induction fs with
  | nil => intro out i f hf; simp at hf
  | cons g gs ih =>
    intro out i f hf
    cases i with
    | zero =>
      simp only [List.getElem?_cons_zero, Option.some_inj] at hf
      subst hf
      refine ⟨out, ?_, ?_, ?_, ?_⟩
      · simp [lenderOuts]
      · simp [lenderPays]
      · simp [lenderPrins]
      · simp only [lenderOuts, List.getElem?_cons_succ]
        exact lenderOuts_zero pct m _ gs
    | succ j =>
      simp only [List.getElem?_cons_succ] at hf
      obtain ⟨outI, h1, h2, h3, h4⟩ := ih (lenderStep pct m out g).2.2 j f hf
      exact ⟨outI, by simpa [lenderOuts] using h1, by simpa [lenderPays] using h2,
        by simpa [lenderPrins] using h3, by simpa [lenderOuts] using h4⟩

theorem lenderOuts_nonneg (pct m : ℝ) :
    ∀ (fs : List ℝ) (out : ℝ), 0 ≤ out → ∀ (k : ℕ) (x : ℝ),
      (lenderOuts pct m out fs)[k]? = some x → 0 ≤ x := by
  intro fs
  induction fs with
  | nil =>
    intro out hout k x hk
    cases k with
    | zero =>
      simp only [lenderOuts, List.getElem?_cons_zero, Option.some_inj] at hk
      exact hk ▸ hout
    | succ j => simp [lenderOuts] at hk
  | cons g gs ih =>
    intro out hout k x hk
    cases k with
    | zero =>
      simp only [lenderOuts, List.getElem?_cons_zero, Option.some_inj] at hk
      exact hk ▸ hout
    | succ j =>
      simp only [lenderOuts, List.getElem?_cons_succ] at hk
      exact ih _ (lenderStep_out_nonneg pct m g hout) j x hk

theorem lenderOuts_telescope (pct m : ℝ) :
    ∀ (fs : List ℝ) (out : ℝ) (k : ℕ), k ≤ fs.length →
      (lenderOuts pct m out fs)[k]? =
        some (out - ((lenderPrins pct m out fs).take k).sum) := by
  intro fs
  induction fs with
  | nil =>
    intro out k hk
    have hk0 : k = 0 := Nat.le_zero.mp hk
    subst hk0
    simp [lenderOuts, lenderPrins]
  | cons g gs ih =>
    intro out k hk
    cases k with
    | zero => simp [lenderOuts, lenderPrins]
    | succ j =>
      simp only [List.length_cons, Nat.succ_le_succ_iff] at hk
      have h := ih (lenderStep pct m out g).2.2 j hk
      have hgen : ∀ S : ℝ, (lenderStep pct m out g).2.2 - S =
          out - ((lenderStep pct m out g).2.1 + S) := by
        intro S
        rw [lenderStep_out_eq pct m out g]
        ring
      simp only [lenderOuts, lenderPrins, List.getElem?_cons_succ, List.take_succ_cons,
        List.sum_cons, h, Option.some_inj]
      exact hgen _

theorem lenderPays_drop (pct m : ℝ) :
    ∀ (fs : List ℝ) (out : ℝ) (i : ℕ) (outI : ℝ),
      (lenderOuts pct m out fs)[i]? = some outI →
      (lenderPays pct m out fs).drop i = lenderPays pct m outI (fs.drop i) := by
  intro fs
  induction fs with
  | nil =>
    intro out i outI h
    cases i with
    | zero =>
      simp only [lenderOuts, List.getElem?_cons_zero, Option.some_inj] at h
      subst h; rfl
    | succ j => simp [lenderOuts] at h
  | cons g gs ih =>
    intro out i outI h
    cases i with
    | zero =>
      simp only [lenderOuts, List.getElem?_cons_zero, Option.some_inj] at h
      subst h; rfl
    | succ j =>
      simp only [lenderOuts, List.getElem?_cons_succ] at h
      simpa [lenderPays] using ih (lenderStep pct m out g).2.2 j outI h

theorem lenderStep_at_zero (pct m f : ℝ) (hpct : 0 ≤ pct) :
    lenderStep pct m 0 f = (0, 0, 0) := by
  unfold lenderStep
  split
  · rfl
  · rename_i hf
    push_neg at hf
    have hfp : (0:ℝ) ≤ f * pct := mul_nonneg hf.le hpct
    have hmin : min (f * pct - 0 * m) (0:ℝ) = 0 := by
      rw [zero_mul, sub_zero]
      exact min_eq_right hfp
    simp [hmin, hfp]

theorem lenderPays_from_zero (pct m : ℝ) (hpct : 0 ≤ pct) :
    ∀ fs : List ℝ, lenderPays pct m 0 fs = List.replicate fs.length 0 := by
  intro fs
  induction fs with
  | nil => rfl
  | cons g gs ih =>
    simp [lenderPays, lenderStep_at_zero pct m g hpct, ih, List.replicate_succ]

theorem lenderPays_length (pct m : ℝ) :
    ∀ (fs : List ℝ) (out : ℝ), (lenderPays pct m out fs).length = fs.length := by
  intro fs
  induction fs with
  | nil => intro out; rfl
  | cons g gs ih => intro out; simp [lenderPays, ih]

theorem lenderStep_pay_nonneg {pct m out : ℝ} (f : ℝ)
    (hpct : 0 ≤ pct) (hm : 0 ≤ m) (hout : 0 ≤ out) :
    0 ≤ (lenderStep pct m out f).1 := by
  unfold lenderStep
  split
  · exact le_refl 0
  · rename_i hf
    push_neg at hf
    simp only
    rcases le_total (f * pct - out * m) out with hmin | hmin
    · rw [min_eq_left hmin]
      have := mul_nonneg hf.le hpct
      linarith
    · rw [min_eq_right hmin]
      have h1 : 0 ≤ out * m := mul_nonneg hout hm
      linarith

theorem lenderStep_pay_le {pct m out f : ℝ} (hf : 0 < f) :
    (lenderStep pct m out f).1 ≤ pct * f := by
  unfold lenderStep
  rw [if_neg (not_le.mpr hf)]
  simp only
  have := min_le_left (f * pct - out * m) out
  have h2 : out * m + (f * pct - out * m) = pct * f := by ring
  linarith

theorem monthly_rate_nonneg {yearly : ℝ} (h : 0 ≤ yearly) :
    0 ≤ monthly_interest_rate yearly := by
  unfold monthly_interest_rate
  have h1 : (1 : ℝ) ^ ((1 : ℝ) / 12) ≤ (1 + yearly) ^ ((1 : ℝ) / 12) :=
    Real.rpow_le_rpow (by norm_num) (by linarith) (by norm_num)
  rw [Real.one_rpow] at h1
  linarith

theorem monthly_rate_at_pow : monthly_interest_rate ((101 / 100 : ℝ) ^ (12 : ℕ) - 1) = 1 / 100 := by
  unfold monthly_interest_rate
  have h : (1 : ℝ) + ((101 / 100 : ℝ) ^ (12 : ℕ) - 1) = (101 / 100 : ℝ) ^ (12 : ℕ) := by ring
  rw [h, ← Real.rpow_natCast (101 / 100 : ℝ) 12,
    ← Real.rpow_mul (by norm_num : (0 : ℝ) ≤ 101 / 100)]
  norm_num

theorem calculate_lender_cashflows_some (cfs : List ℝ) (pct yearly : ℝ)
    (res : List ℝ × LoanSummary)
    (h : calculate_lender_cashflows cfs pct yearly = some res) :
    ∃ c0 flows, cfs = c0 :: flows ∧ flows ≠ [] ∧ c0 < 0 ∧
      res.1 = (c0 * pct) ::
        lenderPays pct (monthly_interest_rate yearly) |c0 * pct| flows ∧
      res.2.final_outstanding_principal =
        lenderFinalOut pct (monthly_interest_rate yearly) |c0 * pct| flows := by
  match cfs with
  | [] => simp [calculate_lender_cashflows] at h
  | [c] => simp [calculate_lender_cashflows] at h
  | c0 :: c1 :: rest =>
    by_cases hc : (0 : ℝ) ≤ c0
    · simp [calculate_lender_cashflows, hc] at h
    · have h2 := h
      simp only [calculate_lender_cashflows, if_neg hc, Option.some_inj] at h2
      refine ⟨c0, c1 :: rest, rfl, by simp, lt_of_not_le hc, ?_, ?_⟩
      · rw [← h2]
      · rw [← h2]

/-- C3: for every accepted cash-flow vector and every month whose underlying
flow is non-positive, the recorded lender payment is exactly 0 and the
outstanding principal is unchanged by that month. -/
theorem C3_grace_month_zero_payment (cfs : List ℝ) (pct yearly : ℝ)
    (res : List ℝ × LoanSummary)
    (h : calculate_lender_cashflows cfs pct yearly = some res)
    (c0 : ℝ) (flows : List ℝ) (hcfs : cfs = c0 :: flows)
    (i : ℕ) (f : ℝ) (hf : flows[i]? = some f) (hf0 : f ≤ 0) :
    res.1[i + 1]? = some 0 ∧
    (lenderOuts pct (monthly_interest_rate yearly) |c0 * pct| flows)[i + 1]? =
      (lenderOuts pct (monthly_interest_rate yearly) |c0 * pct| flows)[i]? := by
  obtain ⟨c0', flows', hcfs', hne, hneg, hres1, hfin⟩ :=
    calculate_lender_cashflows_some cfs pct yearly res h
  rw [hcfs] at hcfs'
  cases hcfs'
  obtain ⟨outI, hOut, hPay, hPrin, hOut2⟩ :=
    lender_trace_spec pct (monthly_interest_rate yearly) flows |c0 * pct| i f hf
  have hstep : lenderStep pct (monthly_interest_rate yearly) outI f = (0, 0, outI) := by
    unfold lenderStep
    rw [if_pos hf0]
  constructor
  · rw [hres1, List.getElem?_cons_succ, hPay, hstep]
  · rw [hOut2, hOut, hstep]

/-- C3 witness: an accepted vector with a grace month at index 0. -/
theorem C3_grace_month_zero_payment_witness :
    (lenderOuts (4 / 5) (monthly_interest_rate (16 / 100)) |(-1000 : ℝ) * (4 / 5)| [-2, 5])[0 + 1]? =
      (lenderOuts (4 / 5) (monthly_interest_rate (16 / 100)) |(-1000 : ℝ) * (4 / 5)| [-2, 5])[0]? := by
  have hcalc : calculate_lender_cashflows [-1000, -2, 5] (4 / 5) (16 / 100) =
      some ((-1000 : ℝ) * (4 / 5) ::
          lenderPays (4 / 5) (monthly_interest_rate (16 / 100)) |(-1000 : ℝ) * (4 / 5)| [-2, 5],
        { loan_amount := |(-1000 : ℝ) * (4 / 5)|
          total_payments_received :=
            (lenderPays (4 / 5) (monthly_interest_rate (16 / 100)) |(-1000 : ℝ) * (4 / 5)| [-2, 5]).sum
          final_outstanding_principal :=
            lenderFinalOut (4 / 5) (monthly_interest_rate (16 / 100)) |(-1000 : ℝ) * (4 / 5)| [-2, 5]
          net_return :=
            (lenderPays (4 / 5) (monthly_interest_rate (16 / 100)) |(-1000 : ℝ) * (4 / 5)| [-2, 5]).sum -
              |(-1000 : ℝ) * (4 / 5)|
          monthly_rate := monthly_interest_rate (16 / 100) }) := by
    simp only [calculate_lender_cashflows, if_neg (by norm_num : ¬ (0 : ℝ) ≤ -1000)]
  exact (C3_grace_month_zero_payment [-1000, -2, 5] (4 / 5) (16 / 100) _ hcalc
    (-1000) [-2, 5] rfl 0 (-2) rfl (by norm_num)).2

/-- C10: for every accepted input with positive loan percentage and
non-negative yearly rate, every lender payment after the initial loan entry
is non-negative and, at a month with positive flow, at most the
loan-percentage share of that flow; and once the outstanding principal is
exactly 0 every subsequent lender payment is exactly 0. -/
theorem C10_payment_bounds (cfs : List ℝ) (pct yearly : ℝ)
    (res : List ℝ × LoanSummary)
    (h : calculate_lender_cashflows cfs pct yearly = some res)
    (c0 : ℝ) (flows : List ℝ) (hcfs : cfs = c0 :: flows)
    (hpct : 0 < pct) (hy : 0 ≤ yearly) :
    (∀ i p, res.1[i + 1]? = some p →
      0 ≤ p ∧ ∀ f, flows[i]? = some f → 0 < f → p ≤ pct * f) ∧
    (∀ i, (lenderOuts pct (monthly_interest_rate yearly) |c0 * pct| flows)[i]? = some (0 : ℝ) →
      ∀ j p, i ≤ j → res.1[j + 1]? = some p → p = 0) := by
  obtain ⟨c0', flows', hcfs', hne, hneg, hres1, hfin⟩ :=
    calculate_lender_cashflows_some cfs pct yearly res h
  rw [hcfs] at hcfs'
  cases hcfs'
  have hm : 0 ≤ monthly_interest_rate yearly := monthly_rate_nonneg hy
  have hout0 : (0 : ℝ) ≤ |c0 * pct| := abs_nonneg _
  constructor
  · intro i p hp
    rw [hres1, List.getElem?_cons_succ] at hp
    have hi : i < flows.length := by
      have h1 := List.getElem?_eq_some.mp hp
      have h2 := h1.1
      rwa [lenderPays_length] at h2
    obtain ⟨f, hf⟩ : ∃ f, flows[i]? = some f := ⟨flows[i], List.getElem?_eq_some.mpr ⟨hi, rfl⟩⟩
    obtain ⟨outI, hOut, hPay, hPrin, hOut2⟩ :=
      lender_trace_spec pct (monthly_interest_rate yearly) flows |c0 * pct| i f hf
    rw [hPay, Option.some_inj] at hp
    have houtI : 0 ≤ outI :=
      lenderOuts_nonneg pct (monthly_interest_rate yearly) flows |c0 * pct| hout0 i outI hOut
    constructor
    · rw [← hp]
      exact lenderStep_pay_nonneg f hpct.le hm houtI
    · intro g hg hg0
      rw [hf, Option.some_inj] at hg
      subst hg
      rw [← hp]
      exact lenderStep_pay_le hg0
  · intro i hzero j p hij hp
    rw [hres1, List.getElem?_cons_succ] at hp
    have hdrop := lenderPays_drop pct (monthly_interest_rate yearly) flows |c0 * pct| i 0 hzero
    have hrep : (lenderPays pct (monthly_interest_rate yearly) |c0 * pct| flows).drop i =
        List.replicate (flows.drop i).length 0 := by
      rw [hdrop, lenderPays_from_zero pct (monthly_interest_rate yearly) hpct.le]
    have hidx : (lenderPays pct (monthly_interest_rate yearly) |c0 * pct| flows)[j]? =
        ((lenderPays pct (monthly_interest_rate yearly) |c0 * pct| flows).drop i)[j - i]? := by
      rw [List.getElem?_drop]
      congr 1
      omega
    rw [hidx, hrep] at hp
    have := List.getElem?_eq_some.mp hp
    obtain ⟨hlt, hval⟩ := this
    rw [List.getElem_replicate] at hval
    exact hval.symm

/-- C10 witness: concrete accepted input with positive percentage and rate;
the first recorded payment (a grace month) is non-negative. -/
theorem C10_payment_bounds_witness :
    (0 : ℝ) ≤ 0 ∧ ∀ f, ([-2, -3] : List ℝ)[0]? = some f → 0 < f → (0 : ℝ) ≤ (4 / 5) * f := by
  have hcalc : calculate_lender_cashflows [-1000, -2, -3] (4 / 5) (16 / 100) =
      some ((-1000 : ℝ) * (4 / 5) ::
          lenderPays (4 / 5) (monthly_interest_rate (16 / 100)) |(-1000 : ℝ) * (4 / 5)| [-2, -3],
        { loan_amount := |(-1000 : ℝ) * (4 / 5)|
          total_payments_received :=
            (lenderPays (4 / 5) (monthly_interest_rate (16 / 100)) |(-1000 : ℝ) * (4 / 5)| [-2, -3]).sum
          final_outstanding_principal :=
            lenderFinalOut (4 / 5) (monthly_interest_rate (16 / 100)) |(-1000 : ℝ) * (4 / 5)| [-2, -3]
          net_return :=
            (lenderPays (4 / 5) (monthly_interest_rate (16 / 100)) |(-1000 : ℝ) * (4 / 5)| [-2, -3]).sum -
              |(-1000 : ℝ) * (4 / 5)|
          monthly_rate := monthly_interest_rate (16 / 100) }) := by
    simp only [calculate_lender_cashflows, if_neg (by norm_num : ¬ (0 : ℝ) ≤ -1000)]
  have hb := (C10_payment_bounds [-1000, -2, -3] (4 / 5) (16 / 100) _ hcalc
    (-1000) [-2, -3] rfl (by norm_num) (by norm_num)).1
  have hpay : ((-1000 : ℝ) * (4 / 5) ::
      lenderPays (4 / 5) (monthly_interest_rate (16 / 100)) |(-1000 : ℝ) * (4 / 5)| [-2, -3])[0 + 1]? =
      some 0 := by
    have hstep : ∀ out : ℝ, lenderStep (4 / 5) (monthly_interest_rate (16 / 100)) out (-2) =
        (0, 0, out) := by
      intro out
      unfold lenderStep
      rw [if_pos (by norm_num : (-2 : ℝ) ≤ 0)]
    simp [lenderPays, hstep]
  have hres := hb 0 0 hpay
  refine ⟨hres.1, fun f hf hf0 => ?_⟩
  have h2 := hres.2 f hf hf0
  simpa using h2

/-- C1 (amended): at every month with positive flow the principal payment is
`min(maxPayment - interest, outstanding)` with NO clamp below at 0 (so it is
negative when interest exceeds maxPayment and the outstanding principal then
increases); the outstanding is non-increasing across a positive-flow month
whenever interest is at most maxPayment; and the outstanding always equals
the initial loan amount minus the cumulative principal payments, hence is
exactly 0 precisely when they are equal. -/
theorem C1_principal_law (cfs : List ℝ) (pct yearly : ℝ)
    (res : List ℝ × LoanSummary)
    (h : calculate_lender_cashflows cfs pct yearly = some res)
    (c0 : ℝ) (flows : List ℝ) (hcfs : cfs = c0 :: flows) :
    (∀ i f outI, flows[i]? = some f →
      (lenderOuts pct (monthly_interest_rate yearly) |c0 * pct| flows)[i]? = some outI →
      0 < f →
      (lenderPrins pct (monthly_interest_rate yearly) |c0 * pct| flows)[i]? =
        some (min (f * pct - outI * monthly_interest_rate yearly) outI) ∧
      (lenderOuts pct (monthly_interest_rate yearly) |c0 * pct| flows)[i + 1]? =
        some (outI - min (f * pct - outI * monthly_interest_rate yearly) outI) ∧
      (outI * monthly_interest_rate yearly ≤ f * pct →
        outI - min (f * pct - outI * monthly_interest_rate yearly) outI ≤ outI)) ∧
    (∀ k, k ≤ flows.length →
      (lenderOuts pct (monthly_interest_rate yearly) |c0 * pct| flows)[k]? =
        some (|c0 * pct| -
          ((lenderPrins pct (monthly_interest_rate yearly) |c0 * pct| flows).take k).sum)) ∧
    (∀ k, k ≤ flows.length →
      ((lenderOuts pct (monthly_interest_rate yearly) |c0 * pct| flows)[k]? = some (0 : ℝ) ↔
        ((lenderPrins pct (monthly_interest_rate yearly) |c0 * pct| flows).take k).sum =
          |c0 * pct|)) := by
  obtain ⟨c0', flows', hcfs', hne, hneg, hres1, hfin⟩ :=
    calculate_lender_cashflows_some cfs pct yearly res h
  rw [hcfs] at hcfs'
  cases hcfs'
  have hout0 : (0 : ℝ) ≤ |c0 * pct| := abs_nonneg _
  refine ⟨?_, ?_, ?_⟩
  · intro i f outI hf hOut hfpos
    obtain ⟨outI', hOut', hPay, hPrin, hOut2⟩ :=
      lender_trace_spec pct (monthly_interest_rate yearly) flows |c0 * pct| i f hf
    rw [hOut, Option.some_inj] at hOut'
    subst hOut'
    have hstep : lenderStep pct (monthly_interest_rate yearly) outI f =
        (outI * monthly_interest_rate yearly +
          min (f * pct - outI * monthly_interest_rate yearly) outI,
         min (f * pct - outI * monthly_interest_rate yearly) outI,
         outI - min (f * pct - outI * monthly_interest_rate yearly) outI) := by
      unfold lenderStep
      rw [if_neg (not_le.mpr hfpos)]
    have houtI : 0 ≤ outI :=
      lenderOuts_nonneg pct (monthly_interest_rate yearly) flows |c0 * pct| hout0 i outI hOut
    refine ⟨by rw [hPrin, hstep], by rw [hOut2, hstep], fun hle => ?_⟩
    have hminpos : 0 ≤ min (f * pct - outI * monthly_interest_rate yearly) outI :=
      le_min (by linarith) houtI
    linarith
  · intro k hk
    exact lenderOuts_telescope pct (monthly_interest_rate yearly) flows |c0 * pct| k hk
  · intro k hk
    rw [lenderOuts_telescope pct (monthly_interest_rate yearly) flows |c0 * pct| k hk]
    rw [Option.some_inj]
    constructor
    · intro hz
      linarith [sub_eq_zero.mp hz]
    · intro hz
      rw [hz]
      ring

/-- C1 witness: a positive-flow month at index 0 of an accepted vector; the
recorded principal payment is the unclamped minimum. -/
theorem C1_principal_law_witness :
    (lenderPrins (4 / 5) (monthly_interest_rate (16 / 100)) |(-1000 : ℝ) * (4 / 5)| [5])[0]? =
      some (min ((5 : ℝ) * (4 / 5) -
        |(-1000 : ℝ) * (4 / 5)| * monthly_interest_rate (16 / 100)) |(-1000 : ℝ) * (4 / 5)|) := by
  have hcalc : calculate_lender_cashflows [-1000, 5] (4 / 5) (16 / 100) =
      some ((-1000 : ℝ) * (4 / 5) ::
          lenderPays (4 / 5) (monthly_interest_rate (16 / 100)) |(-1000 : ℝ) * (4 / 5)| [5],
        { loan_amount := |(-1000 : ℝ) * (4 / 5)|
          total_payments_received :=
            (lenderPays (4 / 5) (monthly_interest_rate (16 / 100)) |(-1000 : ℝ) * (4 / 5)| [5]).sum
          final_outstanding_principal :=
            lenderFinalOut (4 / 5) (monthly_interest_rate (16 / 100)) |(-1000 : ℝ) * (4 / 5)| [5]
          net_return :=
            (lenderPays (4 / 5) (monthly_interest_rate (16 / 100)) |(-1000 : ℝ) * (4 / 5)| [5]).sum -
              |(-1000 : ℝ) * (4 / 5)|
          monthly_rate := monthly_interest_rate (16 / 100) }) := by
    simp only [calculate_lender_cashflows, if_neg (by norm_num : ¬ (0 : ℝ) ≤ -1000)]
  exact ((C1_principal_law [-1000, 5] (4 / 5) (16 / 100) _ hcalc (-1000) [5] rfl).1
    0 5 |(-1000 : ℝ) * (4 / 5)| rfl
    (lenderOuts_zero (4 / 5) (monthly_interest_rate (16 / 100)) |(-1000 : ℝ) * (4 / 5)| [5])
    (by norm_num)).1

/-- C1 counterexample: for the accepted vector `[-1000, 1]` with loan
percentage 0.8 and a yearly rate whose monthly equivalent is exactly 1
percent, the interest (8) exceeds the maximum payment (0.8), the principal
payment is NOT clamped at 0, and the outstanding principal grows from the
initial 800 to 807.2 across the only positive-flow month. -/
theorem C1_counterexample :
    (calculate_lender_cashflows [-1000, 1] (4 / 5) ((101 / 100 : ℝ) ^ (12 : ℕ) - 1)).map
        (fun r => r.2.final_outstanding_principal) = some (4036 / 5) ∧
    |(-1000 : ℝ) * (4 / 5)| = 800 ∧ (800 : ℝ) < 4036 / 5 := by
  have habs : |(-1000 : ℝ) * (4 / 5)| = 800 := by
    rw [show (-1000 : ℝ) * (4 / 5) = -800 by norm_num, abs_of_neg (by norm_num : (-800 : ℝ) < 0)]
    norm_num
  refine ⟨?_, habs, by norm_num⟩
  simp only [calculate_lender_cashflows, if_neg (by norm_num : ¬ (0 : ℝ) ≤ -1000), Option.map_some']
  rw [Option.some_inj]
  show lenderFinalOut (4 / 5) (monthly_interest_rate ((101 / 100 : ℝ) ^ (12 : ℕ) - 1))
      |(-1000 : ℝ) * (4 / 5)| [1] = 4036 / 5
  rw [habs, monthly_rate_at_pow]
  have hstep : lenderStep (4 / 5) (1 / 100) 800 1 =
      ((800 : ℝ) * (1 / 100) + min ((1 : ℝ) * (4 / 5) - 800 * (1 / 100)) 800,
       min ((1 : ℝ) * (4 / 5) - 800 * (1 / 100)) 800,
       800 - min ((1 : ℝ) * (4 / 5) - 800 * (1 / 100)) 800) := by
    unfold lenderStep
    rw [if_neg (by norm_num : ¬ (1 : ℝ) ≤ 0)]
  have hmin : min ((1 : ℝ) * (4 / 5) - 800 * (1 / 100)) 800 =
      (1 : ℝ) * (4 / 5) - 800 * (1 / 100) := min_eq_left (by norm_num)
  simp only [lenderFinalOut, hstep]
  rw [hmin]
  norm_num

/-! ## Lemmas about the historical ratio model -/

theorem length_filter_comp {α β : Type} (f : α → β) (p : β → Bool) :
    ∀ l : List α, ((l.map f).filter p).length = (l.filter fun a => p (f a)).length := by
  intro l
  induction l with
  | nil => rfl
  | cons a as ih =>
    simp only [List.map_cons, List.filter_cons]
    cases hp : p (f a) <;> simp [hp, ih]

theorem ratioSeq_length (series : List (ℚ × ℚ)) : (ratioSeq series).length = series.length :=
  List.length_map _ _

theorem ratioSeq_drop (series : List (ℚ × ℚ)) (k : ℕ) :
    (ratioSeq series).drop k = ratioSeq (series.drop k) := by
  unfold ratioSeq
  rw [List.map_drop]

/-- C7: the overall heads percentage is exactly the fraction of months whose
ratio is undefined (revenue not positive) or above 10000; the last-12 heads
percentage is the same fraction over the most recent 12 (or fewer) months;
conservative mode takes the max of the two, aggressive mode the overall one;
and with positive revenue every month the overall percentage is exactly the
fraction of months whose ratio exceeds 10000. -/
theorem C7_heads_fraction (series : List (ℚ × ℚ)) :
    (series ≠ [] →
      heads_percentage_overall series =
        ((series.filter fun x => !decide (0 < x.2) || decide (10000 < x.1 / x.2)).length : ℚ) /
          series.length) ∧
    (series.drop (series.length - 12) ≠ [] →
      heads_percentage_last_12 series =
        (((series.drop (series.length - 12)).filter
            fun x => !decide (0 < x.2) || decide (10000 < x.1 / x.2)).length : ℚ) /
          (series.drop (series.length - 12)).length) ∧
    heads_percentage series true =
      max (heads_percentage_overall series) (heads_percentage_last_12 series) ∧
    heads_percentage series false = heads_percentage_overall series ∧
    ((∀ x ∈ series, 0 < x.2) → series ≠ [] →
      heads_percentage_overall series =
        ((series.filter fun x => decide (10000 < x.1 / x.2)).length : ℚ) / series.length) := by
  have hcount : ∀ l : List (ℚ × ℚ),
      ((ratioSeq l).filter isHeadsVal).length =
        (l.filter fun x => !decide (0 < x.2) || decide (10000 < x.1 / x.2)).length := by
    intro l
    unfold ratioSeq
    rw [length_filter_comp]
    congr 1
    apply List.filter_congr
    intro x _
    by_cases hx : 0 < x.2 <;> simp [hx, isHeadsVal]
  refine ⟨?_, ?_, rfl, rfl, ?_⟩
  · intro hne
    unfold heads_percentage_overall
    have hlen : (ratioSeq series).length ≠ 0 := by
      rw [ratioSeq_length]
      exact fun h0 => hne (List.eq_nil_of_length_eq_zero h0)
    rw [if_neg hlen, hcount, ratioSeq_length]
  · intro hne
    unfold heads_percentage_last_12 last12Ratios
    have hdrop : (ratioSeq series).drop ((ratioSeq series).length - 12) =
        ratioSeq (series.drop (series.length - 12)) := by
      rw [ratioSeq_length, ratioSeq_drop]
    simp only [hdrop]
    have hlen : (ratioSeq (series.drop (series.length - 12))).length ≠ 0 := by
      rw [ratioSeq_length]
      exact fun h0 => hne (List.eq_nil_of_length_eq_zero h0)
    rw [if_neg hlen, hcount, ratioSeq_length]
  · intro hpos hne
    unfold heads_percentage_overall
    have hlen : (ratioSeq series).length ≠ 0 := by
      rw [ratioSeq_length]
      exact fun h0 => hne (List.eq_nil_of_length_eq_zero h0)
    rw [if_neg hlen, hcount, ratioSeq_length]
    have hfe : series.filter (fun x => !decide (0 < x.2) || decide (10000 < x.1 / x.2)) =
        series.filter fun x => decide (10000 < x.1 / x.2) := by
      apply List.filter_congr
      intro x hx
      simp [hpos x hx]
    rw [hfe]

/-- C7 witness: a two-month series with positive revenue throughout, one
ratio above 10000. -/
theorem C7_heads_fraction_witness :
    heads_percentage_overall [((5 : ℚ), (1 : ℚ)), (20000, 1)] =
      ((([((5 : ℚ), (1 : ℚ)), (20000, 1)].filter
          fun x => decide (10000 < x.1 / x.2)).length : ℚ) /
        ([((5 : ℚ), (1 : ℚ)), (20000, 1)] : List (ℚ × ℚ)).length) :=
  (C7_heads_fraction [((5 : ℚ), (1 : ℚ)), (20000, 1)]).2.2.2.2
    (by decide) (by decide)

/-- C5: a drawn ratio of 0 is eligible for the sampling pool (finite and
below 10000), and on such a draw with referenceCAC above it and grown
spend the deploy-side sampler `run_single_prediction_ratio` hits an
unguarded division by zero (`none` = raised `ZeroDivisionError`), while the
backend twin `predict_next_12_months`, which guards `drawn_ratio > 0`,
returns the defined predicted ratio 0 as the claim describes. -/
theorem C5_zero_ratio_division :
    distributionOf [(0, 50)] = [0] ∧
    predictedRatioDeploy true 5 100 110 0 = none ∧
    predictedRatioBackend true 5 100 110 0 = some 0 := by
  refine ⟨?_, ?_, ?_⟩
  · unfold distributionOf ratioSeq
    norm_num
    have h0 : ((0 : ℚ) < 10000) := by norm_num
    simp [List.filterMap_cons, List.filter_cons, h0]
  · unfold predictedRatioDeploy
    rw [if_pos ⟨rfl, by norm_num⟩, if_pos (by norm_num)]
    have h : pydiv 100 0 = none := by unfold pydiv; rw [if_pos rfl]
    rw [h]
  · unfold predictedRatioBackend
    rw [if_pos ⟨rfl, by norm_num⟩, if_neg (by simp)]

/-! ## Lemmas about the cohort cash-flow projector -/

theorem combineRev_none (rv : Option ℚ) : combineRev none rv = none := by
  cases rv <;> rfl

theorem revenue_tail_length (rvs : List (Option ℚ)) :
    ∀ prev, (revenue_tail prev rvs).length = rvs.length := by
  induction rvs with
  | nil => intro prev; rfl
  | cons rv rest ih => intro prev; simp [revenue_tail, ih]

theorem revenue_tail_index :
    ∀ (rvs : List (Option ℚ)) (prev : Option ℚ) (n : ℕ) (r rv : Option ℚ),
      (prev :: revenue_tail prev rvs)[n]? = some r → rvs[n]? = some rv →
      (prev :: revenue_tail prev rvs)[n + 1]? = some (combineRev r rv) := by
  intro rvs
  induction rvs with
  | nil =>
    intro prev n r rv _ hrv
    simp at hrv
  | cons rv0 rest ih =>
    intro prev n r rv hr hrv
    cases n with
    | zero =>
      simp only [List.getElem?_cons_zero, Option.some_inj] at hr hrv
      subst hr
      subst hrv
      simp [revenue_tail]
    | succ j =>
      simp only [List.getElem?_cons_succ] at hr hrv
      have hr2 : (combineRev prev rv0 :: revenue_tail (combineRev prev rv0) rest)[j]? = some r := by
        simpa [revenue_tail] using hr
      have := ih (combineRev prev rv0) j r rv hr2 hrv
      simpa [revenue_tail] using this

/-- C6 (amended): month-1 revenue is `spend/ratio` for a non-zero ratio and
null for a zero ratio (so a negative ratio yields `spend/ratio`, not 0);
months 2..60 follow the `revenue[n-1] × curve[n]` recursion with null
propagating to every later month; gross profit is revenue times margin with
null propagated; and the emitted cash-flow vector is `[-spend]` followed by
the gross profits with null entries as 0. -/
theorem C6_projection_law (sm ratio : ℚ) (curve : List (Option ℚ)) (margin : ℚ) :
    (revenue_seq sm ratio curve)[0]? = some (month1_revenue sm ratio) ∧
    (ratio = 0 → month1_revenue sm ratio = none) ∧
    (ratio ≠ 0 → month1_revenue sm ratio = some (sm / ratio)) ∧
    (∀ n r rv, (revenue_seq sm ratio curve)[n]? = some r →
      ((curve.drop 1).take 59)[n]? = some rv →
      (revenue_seq sm ratio curve)[n + 1]? = some (combineRev r rv)) ∧
    (∀ n, (revenue_seq sm ratio curve)[n]? = some none →
      ∀ k, n ≤ k → k < (revenue_seq sm ratio curve).length →
        (revenue_seq sm ratio curve)[k]? = some none) ∧
    (∀ n : ℕ, (gross_profit_seq sm ratio curve margin)[n]? =
      Option.map (fun r => Option.map (fun v => v * margin) r)
        ((revenue_seq sm ratio curve)[n]?)) ∧
    (cash_flow_vec sm ratio curve margin)[0]? = some (-sm) ∧
    (∀ n : ℕ, (cash_flow_vec sm ratio curve margin)[n + 1]? =
      Option.map (fun g => Option.getD g 0)
        ((gross_profit_seq sm ratio curve margin)[n]?)) := by
  refine ⟨by simp [revenue_seq], fun h => by simp [month1_revenue, h],
    fun h => by simp [month1_revenue, h], ?_, ?_, ?_, ?_, ?_⟩
  · intro n r rv hr hrv
    exact revenue_tail_index ((curve.drop 1).take 59) (month1_revenue sm ratio) n r rv hr hrv
  · intro n hn k hnk hk
    induction k, hnk using Nat.le_induction with
    | base => exact hn
    | succ j hj ih =>
      have hjlen : j < (revenue_seq sm ratio curve).length := Nat.lt_of_succ_lt hk
      have hjval := ih hjlen
      have hjlt : j < ((curve.drop 1).take 59).length := by
        have : (revenue_seq sm ratio curve).length = ((curve.drop 1).take 59).length + 1 := by
          unfold revenue_seq
          simp [revenue_tail_length]
        omega
      obtain ⟨rv, hrv⟩ : ∃ rv, ((curve.drop 1).take 59)[j]? = some rv :=
        ⟨((curve.drop 1).take 59)[j], List.getElem?_eq_some.mpr ⟨hjlt, rfl⟩⟩
      have := revenue_tail_index ((curve.drop 1).take 59) (month1_revenue sm ratio)
        j none rv hjval hrv
      rwa [combineRev_none] at this
  · intro n
    unfold gross_profit_seq
    rw [List.getElem?_map]
  · simp [cash_flow_vec]
  · intro n
    unfold cash_flow_vec
    rw [List.getElem?_cons_succ, List.getElem?_map]

/-- C6 witness: with spend 100, ratio 2 and an all-ones curve the recursion
carries month-1 revenue 50 into month 2. -/
theorem C6_projection_law_witness :
    (revenue_seq 100 2 (List.replicate 60 (some 1)))[0 + 1]? =
      some (combineRev (some (100 / 2)) (some 1)) := by
  have h := (C6_projection_law 100 2 (List.replicate 60 (some 1)) (1 / 2)).2.2.2.1
  refine h 0 (some (100 / 2)) (some 1) ?_ ?_
  · simp only [revenue_seq, List.getElem?_cons_zero, month1_revenue]
    norm_num
  · simp [List.drop_replicate, List.take_replicate]

/-! ## Lemmas about the return-cap engine -/

theorem npvQ_replicate_zero (r : ℚ) : ∀ k, npvQ (List.replicate k 0) r = 0 := by
  intro k
  induction k with
  | zero => rfl
  | succ j ih => simp [List.replicate_succ, npvQ, ih]

/-- The modelled root is a genuine root of the net present value. -/
theorem npvQ_two_entry_root (L p : ℚ) (k : ℕ) (hL : 0 < L) (hp : 0 < p) :
    npvQ (-L :: p :: List.replicate k 0) (p / L - 1) = 0 := by
  simp only [npvQ, npvQ_replicate_zero]
  have hL2 : L ≠ 0 := ne_of_gt hL
  have hp2 : p ≠ 0 := ne_of_gt hp
  have h1 : (1 : ℚ) + (p / L - 1) = p / L := by ring
  rw [h1, zero_div, add_zero, div_div_eq_mul_div, mul_div_cancel_left₀ _ hp2]
  ring

/-- On `(-1, ∞)` the modelled root is the only root of the net present
value, so any correct root-finder returns it. -/
theorem npvQ_two_entry_root_unique (L p : ℚ) (k : ℕ) (hL : 0 < L) (hp : 0 < p)
    (r : ℚ) (hr : -1 < r) (hz : npvQ (-L :: p :: List.replicate k 0) r = 0) :
    r = p / L - 1 := by
  simp only [npvQ, npvQ_replicate_zero] at hz
  have h1 : (0 : ℚ) < 1 + r := by linarith
  have h2 : p = L * (1 + r) := by
    field_simp at hz
    linarith
  have hL0 : L ≠ 0 := ne_of_gt hL
  have h3 : p / L = 1 + r := by
    rw [h2, mul_div_cancel_left₀ _ hL0]
  linarith

theorem zeroFrom_eq : ∀ (m : ℕ) (l : List ℚ),
    zeroFrom m l = l.take m ++ List.replicate (l.length - m) 0 := by
  have hz : ∀ l : List ℚ, zeroFrom 0 l = List.replicate l.length 0 := by
    intro l
    induction l with
    | nil => rfl
    | cons x rest ih => simp [zeroFrom, ih, List.replicate_succ]
  intro m
  induction m with
  | zero => intro l; simp [hz]
  | succ j ih =>
    intro l
    cases l with
    | nil => simp [zeroFrom]
    | cons x rest => simp [zeroFrom, ih rest]

theorem find?_range'_first (p : ℕ → Bool) :
    ∀ (n s i : ℕ), (List.range' s n).find? p = some i →
      p i = true ∧ s ≤ i ∧ i < s + n ∧ ∀ j, s ≤ j → j < i → p j = false := by
  intro n
  induction n with
  | zero => intro s i h; simp [List.range'] at h
  | succ k ih =>
    intro s i h
    rw [List.range'_succ] at h
    by_cases hs : p s = true
    · rw [List.find?_cons_of_pos _ hs, Option.some_inj] at h
      subst h
      exact ⟨hs, le_refl s, by omega, fun j h1 h2 => absurd (lt_of_le_of_lt h1 h2) (lt_irrefl s)⟩
    · have hs2 : p s = false := by
        cases hps : p s
        · rfl
        · exact absurd hps hs
      rw [List.find?_cons_of_neg _ (by simp [hs2])] at h
      obtain ⟨h1, h2, h3, h4⟩ := ih (s + 1) i h
      refine ⟨h1, by omega, by omega, fun j hj1 hj2 => ?_⟩
      by_cases hjs : j = s
      · exact hjs ▸ hs2
      · exact h4 j (by omega) hj2

theorem capCond_true_iff (irrFn : List ℚ → Option ℚ) (L target : ℚ) (pays : List ℚ)
    (month : ℕ) :
    capCond irrFn L target pays month = true ↔
      ∃ r, irrFn (-L :: pays.take (month + 1)) = some r ∧ target ≤ r := by
  unfold capCond
  cases h : irrFn (-L :: pays.take (month + 1)) with
  | none => simp
  | some r => simp [decide_eq_true_iff]

/-- C2 (amended): capping is triggered at the first prefix length `m` whose
MONTHLY root-finder value on `[-loanAmount] ++ payments[1..m]` is defined
and `>= targetIRR` — the source compares the monthly IRR against the target
with no annualization; payments after month `m` are zeroed while payments
up to and including `m` are unchanged, no capping occurs when no prefix
qualifies, and the final IRR and cumulative return are recomputed on the
capped series. -/
theorem C2_cap_law (irrFn : List ℚ → Option ℚ) (L target : ℚ) (pays : List ℚ) :
    (∀ m, months_to_target irrFn L target pays = some m →
      1 ≤ m ∧ m ≤ pays.length ∧
      (∃ r, irrFn (-L :: pays.take m) = some r ∧ target ≤ r) ∧
      (∀ m2, 1 ≤ m2 → m2 < m → ∀ r, irrFn (-L :: pays.take m2) = some r → r < target) ∧
      final_monthly_returns irrFn L target pays =
        pays.take m ++ List.replicate (pays.length - m) 0) ∧
    (months_to_target irrFn L target pays = none →
      (∀ m2, 1 ≤ m2 → m2 ≤ pays.length → ∀ r, irrFn (-L :: pays.take m2) = some r →
        r < target) ∧
      final_monthly_returns irrFn L target pays = pays) ∧
    final_cumulative_return irrFn L target pays =
      (final_monthly_returns irrFn L target pays).sum ∧
    final_irr irrFn L target pays =
      irrFn (-L :: final_monthly_returns irrFn L target pays) := by
  refine ⟨?_, ?_, rfl, rfl⟩
  · intro m hm
    have hm0 := hm
    unfold months_to_target at hm0
    obtain ⟨month, hfind, hm1⟩ := Option.map_eq_some'.mp hm0
    subst hm1
    rw [List.range_eq_range'] at hfind
    obtain ⟨hcond, _, hlt, hfirst⟩ := find?_range'_first _ pays.length 0 month hfind
    have hcond2 := (capCond_true_iff irrFn L target pays month).mp hcond
    refine ⟨by omega, by omega, hcond2, ?_, ?_⟩
    · intro m2 h1 h2 r hr
      have hfalse := hfirst (m2 - 1) (by omega) (by omega)
      by_contra hge
      push_neg at hge
      have : capCond irrFn L target pays (m2 - 1) = true := by
        rw [capCond_true_iff, show m2 - 1 + 1 = m2 by omega]
        exact ⟨r, hr, hge⟩
      rw [this] at hfalse
      exact Bool.noConfusion hfalse
    · unfold final_monthly_returns
      rw [hm]
      show zeroFrom (month + 1) pays = _
      rw [zeroFrom_eq]
  · intro hm
    have hfind : (List.range pays.length).find? (capCond irrFn L target pays) = none := by
      have hm0 := hm
      unfold months_to_target at hm0
      cases hf : (List.range pays.length).find? (capCond irrFn L target pays) with
      | none => rfl
      | some v =>
        rw [hf] at hm0
        simp at hm0
    constructor
    · intro m2 h1 h2 r hr
      have hmem : m2 - 1 ∈ List.range pays.length := List.mem_range.mpr (by omega)
      have hfalse := List.find?_eq_none.mp hfind (m2 - 1) hmem
      by_contra hge
      push_neg at hge
      have : capCond irrFn L target pays (m2 - 1) = true := by
        rw [capCond_true_iff, show m2 - 1 + 1 = m2 by omega]
        exact ⟨r, hr, hge⟩
      simp [this] at hfalse
    · unfold final_monthly_returns
      rw [hm]

/-- C2 witness: with the modelled root-finder, loan 100 and payments
[116, 5], the month-1 prefix has monthly IRR 0.16 ≥ target 0.16, so the
series is capped after month 1. -/
theorem C2_cap_law_witness :
    final_monthly_returns modelIrr 100 (16 / 100) [116, 5] =
      ([116, 5] : List ℚ).take 1 ++ List.replicate (([116, 5] : List ℚ).length - 1) 0 := by
  have h1 : modelIrr [-100, (116 : ℚ)] = some (16 / 100) := by
    simp only [modelIrr]
    rw [if_pos ⟨by norm_num, by norm_num, rfl⟩, Option.some_inj]
    norm_num
  have hcap0 : capCond modelIrr 100 (16 / 100) [116, 5] 0 = true := by
    unfold capCond
    rw [show ([116, 5] : List ℚ).take (0 + 1) = [116] from rfl, h1]
    simp
  have hmt : months_to_target modelIrr 100 (16 / 100) [116, 5] = some 1 := by
    unfold months_to_target
    rw [show List.range ([116, 5] : List ℚ).length = [0, 1] from rfl,
      List.find?_cons_of_pos _ hcap0]
    rfl
  exact ((C2_cap_law modelIrr 100 (16 / 100) [116, 5]).1 1 hmt).2.2.2.2

/-- C2 counterexample: for loan 100, payments [102, 0] and target 0.16, the
month-1 monthly IRR is 0.02, whose ANNUALIZED value `(1.02)^12 - 1` exceeds
the target, yet the source triggers no cap (months_to_target is None)
because it compares the monthly 0.02 against 0.16 directly. -/
theorem C2_counterexample :
    modelIrr [-100, (102 : ℚ)] = some (2 / 100) ∧
    (16 / 100 : ℚ) ≤ (1 + 2 / 100) ^ (12 : ℕ) - 1 ∧
    months_to_target modelIrr 100 (16 / 100) [102, 0] = none ∧
    final_monthly_returns modelIrr 100 (16 / 100) [102, 0] = [102, 0] := by
  have h1 : modelIrr [-100, (102 : ℚ)] = some (2 / 100) := by
    simp only [modelIrr]
    rw [if_pos ⟨by norm_num, by norm_num, rfl⟩, Option.some_inj]
    norm_num
  have h2 : modelIrr [-100, (102 : ℚ), 0] = some (2 / 100) := by
    simp only [modelIrr]
    rw [if_pos ⟨by norm_num, by norm_num, by simp⟩, Option.some_inj]
    norm_num
  have hc0 : capCond modelIrr 100 (16 / 100) [102, 0] 0 = false := by
    unfold capCond
    rw [show ([102, 0] : List ℚ).take (0 + 1) = [102] from rfl, h1]
    simp
    norm_num
  have hc1 : capCond modelIrr 100 (16 / 100) [102, 0] 1 = false := by
    unfold capCond
    rw [show ([102, 0] : List ℚ).take (1 + 1) = [102, 0] from rfl, h2]
    simp
    norm_num
  have hmt : months_to_target modelIrr 100 (16 / 100) [102, 0] = none := by
    unfold months_to_target
    rw [show List.range ([102, 0] : List ℚ).length = [0, 1] from rfl,
      List.find?_cons_of_neg _ (by simp [hc0]), List.find?_cons_of_neg _ (by simp [hc1])]
    rfl
  refine ⟨h1, by norm_num, hmt, ?_⟩
  unfold final_monthly_returns
  rw [hmt]

/-- C4 (amended): a root-finder failure is signalled as undefined (`none`),
never thrown: the summary-table IRR wrapper propagates it, and every prefix
with an undefined root is skipped by the target search, so a trajectory
whose prefixes all have undefined IRR is treated as not-yet-reached and
left uncapped.  (The coercion of the undefined value to 0 in reported
results is the corrected part, witnessed by the counterexample.) -/
theorem C4_undefined_excluded (irrFn : List ℚ → Option ℚ) (L target : ℚ)
    (pays cf : List ℚ) :
    (irrFn cf = none → calc_irr_yearly irrFn cf = none) ∧
    ((∀ month, month < pays.length → irrFn (-L :: pays.take (month + 1)) = none) →
      months_to_target irrFn L target pays = none ∧
      final_monthly_returns irrFn L target pays = pays) := by
  constructor
  · intro h
    unfold calc_irr_yearly
    split
    · rfl
    · rw [h]
  · intro h
    have hmt : months_to_target irrFn L target pays = none := by
      unfold months_to_target
      have hfind : (List.range pays.length).find? (capCond irrFn L target pays) = none := by
        rw [List.find?_eq_none]
        intro month hmem
        have hm := List.mem_range.mp hmem
        unfold capCond
        rw [h month hm]
        simp
      rw [hfind]
      rfl
    refine ⟨hmt, ?_⟩
    unfold final_monthly_returns
    rw [hmt]

/-- C4 witness: with the modelled root-finder and all-zero payments after
the investment every prefix IRR is undefined; the trajectory is treated as
not-yet-reached and left uncapped. -/
theorem C4_undefined_excluded_witness :
    months_to_target modelIrr 100 (16 / 100) [0, 0] = none ∧
    final_monthly_returns modelIrr 100 (16 / 100) [0, 0] = [0, 0] := by
  refine (C4_undefined_excluded modelIrr 100 (16 / 100) [0, 0] [-100, 0, 0]).2 ?_
  intro month hm
  rw [show ([0, 0] : List ℚ).length = 2 from rfl] at hm
  have hm2 : month = 0 ∨ month = 1 := by omega
  rcases hm2 with h | h <;> subst h
  · rw [show ([0, 0] : List ℚ).take (0 + 1) = [0] from rfl]
    simp only [modelIrr]
    rw [if_neg (by simp)]
  · rw [show ([0, 0] : List ℚ).take (1 + 1) = [0, 0] from rfl]
    simp only [modelIrr]
    rw [if_neg (by simp)]

/-- C4 counterexample: for the cash flow [-100, 0, 0] (all flows after the
investment non-positive) the root-finder value is undefined and the
annualized wrapper returns None, yet the IRR cell written into the summary
row is the coerced value 0. -/
theorem C4_counterexample :
    calc_irr_yearly modelIrr [-100, 0, 0] = none ∧
    summary_irr_cell modelIrr [-100, 0, 0] = 0 := by
  have h1 : modelIrr [-100, (0 : ℚ), 0] = none := by
    simp only [modelIrr]
    rw [if_neg (by simp)]
  have h2 : calc_irr_yearly modelIrr [-100, (0 : ℚ), 0] = none := by
    unfold calc_irr_yearly
    rw [if_neg (by norm_num), h1]
  refine ⟨h2, ?_⟩
  unfold summary_irr_cell
  rw [h2]
  rfl

/-- C6 counterexample: with spend 100 and ratio -1 (a ratio `≤ 0`), month-1
revenue is `100 / -1 = -100`, not 0, and the emitted cash-flow entry for
month 1 is `-50`, not 0. -/
theorem C6_counterexample :
    (revenue_seq 100 (-1) (List.replicate 60 (some 1)))[0]? = some (some (-100 : ℚ)) ∧
    (cash_flow_vec 100 (-1) (List.replicate 60 (some 1)) (1 / 2))[1]? = some (-50 : ℚ) ∧
    ((-50 : ℚ) ≠ 0) := by
  refine ⟨?_, ?_, by norm_num⟩
  · simp only [revenue_seq, List.getElem?_cons_zero, month1_revenue]
    norm_num
  · simp only [cash_flow_vec, gross_profit_seq, revenue_seq, List.map_cons,
      List.getElem?_cons_succ, List.getElem?_cons_zero, month1_revenue]
    norm_num

/-! ## Lemmas about the retention-curve sampler -/

theorem tier_widen_pos (n : ℕ) : 1 ≤ tier_widen n := by
  unfold tier_widen
  split
  · norm_num
  · split
    · norm_num
    · split <;> norm_num

theorem colsVals_ne_nil (t : List (List (Option ℚ))) :
    ∀ cols : List ℕ, cols ≠ [] → (∀ x ∈ cols, colVals t x ≠ []) →
      colsVals t cols ≠ [] := by
  intro cols
  cases cols with
  | nil => intro h _; exact absurd rfl h
  | cons c cs =>
    intro _ hall hnil
    rw [show colsVals t (c :: cs) = colVals t c ++ colsVals t cs from rfl,
      List.append_eq_nil] at hnil
    exact hall c (List.mem_cons_self c cs) hnil.1

theorem left_cols_members (t : List (List (Option ℚ))) (c k : ℕ) :
    ∀ x ∈ left_cols t c k, colVals t x ≠ [] := by
  intro x hx
  unfold left_cols at hx
  have hx2 := List.mem_of_mem_take hx
  have hp := List.of_mem_filter hx2
  simpa using hp

theorem right_cols_members (t : List (List (Option ℚ))) (c k : ℕ) :
    ∀ x ∈ right_cols t c k, colVals t x ≠ [] := by
  intro x hx
  unfold right_cols at hx
  have hx2 := List.mem_of_mem_take hx
  have hp := List.of_mem_filter hx2
  simpa using hp

theorem left_cols_ne_nil (t : List (List (Option ℚ))) (c k : ℕ) (hk : 1 ≤ k)
    (j : ℕ) (hj : j < c) (h : colVals t j ≠ []) : left_cols t c k ≠ [] := by
  unfold left_cols
  intro hnil
  have hmem : j ∈ ((List.range c).reverse).filter fun x => !(colVals t x).isEmpty := by
    rw [List.mem_filter]
    exact ⟨List.mem_reverse.mpr (List.mem_range.mpr hj), by simpa using h⟩
  rcases List.take_eq_nil_iff.mp hnil with h0 | h0
  · omega
  · rw [h0] at hmem
    exact absurd hmem (List.not_mem_nil j)

theorem right_cols_ne_nil (t : List (List (Option ℚ))) (c k : ℕ) (hk : 1 ≤ k)
    (j : ℕ) (hj1 : c < j) (hj2 : j < 60) (h : colVals t j ≠ []) :
    right_cols t c k ≠ [] := by
  unfold right_cols
  intro hnil
  have hmem : j ∈ (List.range' (c + 1) (60 - (c + 1))).filter
      fun x => !(colVals t x).isEmpty := by
    rw [List.mem_filter]
    refine ⟨List.mem_range'_1.mpr ⟨by omega, by omega⟩, by simpa using h⟩
  rcases List.take_eq_nil_iff.mp hnil with h0 | h0
  · omega
  · rw [h0] at hmem
    exact absurd hmem (List.not_mem_nil j)

/-- C8 (amended): for every retention table, the widened pool of every
column `c` in 0..59 is non-empty — and the drawn value is non-null —
whenever some column with index BELOW 60 holds an observed value outside
the older-cohorts first row.  (A value sitting only in a column with index
60 or higher is out of reach of the widening search, which scans
`range(col-1, -1, -1)` and `range(col+1, 60)` only; see the
counterexample.) -/
theorem C8_pool_nonempty (t : List (List (Option ℚ))) (j : ℕ) (hj : j < 60)
    (hcol : colVals t j ≠ []) (c : ℕ) (hc : c < 60) :
    pool t c ≠ [] ∧ ∀ pick, choose_raw t c pick ≠ none := by
  have hpool : pool t c ≠ [] := by
    simp only [pool]
    intro hnil
    rw [List.append_eq_nil, List.append_eq_nil] at hnil
    obtain ⟨⟨h1, h2⟩, h3⟩ := hnil
    rcases lt_trichotomy j c with hlt | heq | hgt
    · have hne := left_cols_ne_nil t c (tier_widen (colVals t c).length)
        (tier_widen_pos _) j hlt hcol
      exact colsVals_ne_nil t _ hne (left_cols_members t c _) h2
    · exact hcol (heq ▸ h1)
    · have hne := right_cols_ne_nil t c (tier_widen (colVals t c).length)
        (tier_widen_pos _) j hgt hj hcol
      exact colsVals_ne_nil t _ hne (right_cols_members t c _) h3
  refine ⟨hpool, fun pick => ?_⟩
  unfold choose_raw
  have hlen : 0 < (pool t c).length := List.length_pos.mpr hpool
  have hmod : pick % (pool t c).length < (pool t c).length := Nat.mod_lt _ hlen
  rw [List.getElem?_eq_getElem hmod]
  exact Option.some_ne_none _

/-- C8 witness: a table whose only observed value sits in column 0 yields a
non-null draw at column 5. -/
theorem C8_pool_nonempty_witness :
    choose_raw [[], [some 1]] 5 3 ≠ none :=
  (C8_pool_nonempty [[], [some 1]] 0 (by norm_num) (by simp [colVals]) 5 (by norm_num)).2 3

/-- C8 counterexample: a table whose only observed value (excluding the
older-cohorts first row) sits in column 60 — reachable for a cohort with 62
recorded months — has an empty widened pool at column 0, and the sampled
value there is null, although the table does contain an observed value. -/
theorem C8_counterexample :
    (∃ row ∈ ([[], List.replicate 60 (none : Option ℚ) ++ [some 2]] :
        List (List (Option ℚ))).drop 1, ∃ v ∈ row, v ≠ none) ∧
    colVals [[], List.replicate 60 (none : Option ℚ) ++ [some 2]] 60 ≠ [] ∧
    pool [[], List.replicate 60 (none : Option ℚ) ++ [some 2]] 0 = [] ∧
    choose_raw [[], List.replicate 60 (none : Option ℚ) ++ [some 2]] 0 0 = none := by
  refine ⟨⟨List.replicate 60 (none : Option ℚ) ++ [some 2], by simp,
    some 2, by simp, by simp⟩, ?_, ?_, ?_⟩
  · show colVals [[], List.replicate 60 (none : Option ℚ) ++ [some 2]] 60 ≠ []
    rw [show colVals [[], List.replicate 60 (none : Option ℚ) ++ [some 2]] 60 = [2] from rfl]
    simp
  · rfl
  · rfl

/-- C9: under an identical random stream the aggressive curve records the
raw draw unchanged; the conservative curve draws the same raw value per
column and keeps it when it is at most `max(1, floor)`, replacing it with
the average of the value and `max(1, floor)` — which never exceeds it —
when it is above; hence no conservative value exceeds the aggressive one. -/
theorem sample_col_some (t : List (List (Option ℚ))) (floor : ℚ) (conservative : Bool)
    (pick c : ℕ) (ch : ℚ) (h : choose_raw t c pick = some ch) :
    sample_col t floor conservative pick c =
      if conservative = true ∧ max 1 floor < ch then some ((max 1 floor + ch) / 2)
      else some ch := by
  unfold sample_col
  rw [h]

theorem C9_conservative_dampening (t : List (List (Option ℚ))) (floor : ℚ)
    (picks : ℕ → ℕ) (c : ℕ) :
    sample_col t floor false (picks c) c = choose_raw t c (picks c) ∧
    (∀ ch, choose_raw t c (picks c) = some ch →
      (ch ≤ max 1 floor → sample_col t floor true (picks c) c = some ch) ∧
      (max 1 floor < ch →
        sample_col t floor true (picks c) c = some ((max 1 floor + ch) / 2) ∧
        (max 1 floor + ch) / 2 ≤ ch)) ∧
    (∀ av cv, sample_col t floor false (picks c) c = some av →
      sample_col t floor true (picks c) c = some cv → cv ≤ av) ∧
    (c < 60 →
      (simulate_curve t floor false picks)[c]? =
        some (sample_col t floor false (picks c) c) ∧
      (simulate_curve t floor true picks)[c]? =
        some (sample_col t floor true (picks c) c)) := by
  have hagg : sample_col t floor false (picks c) c = choose_raw t c (picks c) := by
    cases hcr : choose_raw t c (picks c) with
    | none =>
      unfold sample_col
      rw [hcr]
    | some ch =>
      rw [sample_col_some t floor false (picks c) c ch hcr, if_neg (by simp)]
  have hcons : ∀ ch, choose_raw t c (picks c) = some ch →
      (ch ≤ max 1 floor → sample_col t floor true (picks c) c = some ch) ∧
      (max 1 floor < ch →
        sample_col t floor true (picks c) c = some ((max 1 floor + ch) / 2) ∧
        (max 1 floor + ch) / 2 ≤ ch) := by
    intro ch h
    constructor
    · intro hle
      rw [sample_col_some t floor true (picks c) c ch h]
      exact if_neg fun hx => absurd hx.2 (not_lt.mpr hle)
    · intro hlt
      refine ⟨?_, by linarith⟩
      rw [sample_col_some t floor true (picks c) c ch h]
      exact if_pos ⟨rfl, hlt⟩
  refine ⟨hagg, hcons, ?_, ?_⟩
  · intro av cv hav hcv
    rw [hagg] at hav
    rcases le_or_lt av (max 1 floor) with hle | hlt
    · have := (hcons av hav).1 hle
      rw [this, Option.some_inj] at hcv
      exact hcv ▸ le_refl av
    · have := ((hcons av hav).2 hlt).1
      rw [this, Option.some_inj] at hcv
      have hb := ((hcons av hav).2 hlt).2
      exact hcv ▸ hb
  · intro hc
    unfold simulate_curve
    constructor <;>
      rw [List.getElem?_map, List.getElem?_range hc, Option.map_some']

/-- C9 witness: a one-value table with floor 1; the raw draw 2 exceeds
`max(1, 1)` and the conservative value is the average `3/2`. -/
theorem C9_conservative_dampening_witness :
    sample_col [[], [some 2]] 1 true 0 0 = some ((max 1 1 + 2) / 2) :=
  (((C9_conservative_dampening [[], [some 2]] 1 (fun _ => 0) 0).2.1 2 rfl).2
    (by rw [max_self]; norm_num)).1

end RiskEngine
